import Mathlib

/-!
Verification development for the degree-audit subsystem of the webreg scraper
(crates/webreg/src/degree_audit/{cache,client,error,job}.rs).

The Rust code is shallowly embedded:
* strings are `List Char`; ASCII lowercasing/whitespace model Rust's
  `to_lowercase`/`trim` on the ASCII inputs these claims exercise;
* `std::time::Instant` is a `Nat` timestamp (monotone clock), `Duration` a
  `Nat` in the same unit; `Instant::elapsed` at time `now` is `now - t`;
* `DashMap` is an association list with overwrite-on-insert;
* `u64` arithmetic is `Nat` with `% 2 ^ 64` where overflow is possible;
* fallible operations return `Except DegreeAuditError`.
-/

namespace WebregAudit

/-- ASCII lowercase of a character, modelling `char::to_lowercase` on the
ASCII range used by the scraper's keyword comparisons. -/
def toLowerChar (c : Char) : Char :=
  if 'A' ≤ c ∧ c ≤ 'Z' then Char.ofNat (c.toNat + 32) else c

/-- Lowercase a string (`str::to_lowercase`, modelled on the ASCII range). -/
def lowerStr (s : List Char) : List Char :=
  s.map toLowerChar

/-- ASCII whitespace, modelling the whitespace class used by `str::trim` and
the regex `\s` on ASCII input. -/
def isAsciiSpace (c : Char) : Bool :=
  c = ' ' || c = '\t' || c = '\n' || c = '\r' || c = Char.ofNat 11 || c = Char.ofNat 12

/-- `str::trim`: strip leading and trailing whitespace. -/
def trimStr (s : List Char) : List Char :=
  ((s.dropWhile isAsciiSpace).reverse.dropWhile isAsciiSpace).reverse

/-- Substring test, modelling Rust `str::contains` with a literal pattern:
true iff `pat` occurs contiguously in `hay`. -/
def containsSub (hay pat : List Char) : Bool :=
  match hay with
  | [] => pat.isEmpty
  | _ :: t => pat.isPrefixOf hay || containsSub t pat

/-! ## Error taxonomy (degree_audit/error.rs) -/

/-- `DegreeAuditError` from error.rs. `f64` elapsed seconds in `PollTimeout`
are carried as a `Nat`; no claim inspects that payload. -/
inductive DegreeAuditError where
  | Network (message : List Char)
  | SessionExpired (redirect_url : List Char)
  | NoSession (message : List Char)
  | UnexpectedResponse (message : List Char)
  | NoJobFound
  | JobFailed (reason : List Char)
  | PollTimeout (attempts : Nat) (elapsed_secs : Nat)
  | ParseError (message : List Char)
  | UrlError (message : List Char)
  | CircuitBreakerOpen
  | OperationInProgress
  | CookieFetchError (message : List Char)
deriving DecidableEq

namespace DegreeAuditError

/-- `DegreeAuditError::needs_reauth` from error.rs. -/
def needs_reauth : DegreeAuditError → Bool
  | SessionExpired _ => true
  | NoSession _ => true
  | _ => false

/-- `DegreeAuditError::is_retryable` from error.rs: matches
`Network | PollTimeout | UnexpectedResponse`. -/
def is_retryable : DegreeAuditError → Bool
  | Network _ => true
  | PollTimeout _ _ => true
  | UnexpectedResponse _ => true
  | _ => false

end DegreeAuditError

/-! ## Audit payload (degree_audit/types.rs)

`DegreeAudit` is the parsed audit returned to callers and stored in the
cache. Its inner structure (student info, requirements) is opaque to every
cache/breaker/client claim, so it is embedded by its identifying field. -/

structure DegreeAudit where
  audit_id : List Char
deriving DecidableEq

/-! ## Session keys and the result cache (degree_audit/cache.rs) -/

/-- `SessionKey`: the hex-encoded truncated SHA-256 fingerprint of the raw
cookie. The hash computation itself is opaque to the claims, which use the
key only as a cache/lock identity, so the key is embedded as its string. -/
structure SessionKey where
  hash : List Char
deriving DecidableEq

/-- `CachedAudit` from cache.rs: a cached result with its insertion
timestamp and per-entry TTL. -/
structure CachedAudit where
  result : DegreeAudit
  cached_at : Nat
  ttl : Nat
deriving DecidableEq

/-- `AuditCache` from cache.rs. The `DashMap` is embedded as an association
list with unique keys; `insert` overwrites (erase-then-cons). -/
structure AuditCache where
  entries : List (SessionKey × CachedAudit)
  default_ttl : Nat
deriving DecidableEq

namespace AuditCache

/-- `AuditCache::new`. -/
def new (default_ttl : Nat) : AuditCache :=
  { entries := [], default_ttl := default_ttl }

/-- `AuditCache::get` at clock value `now`: return the stored result if the
entry exists and `elapsed < ttl`; otherwise remove the expired entry and
return none. Returns the result together with the updated map. -/
def get (c : AuditCache) (key : SessionKey) (now : Nat) :
    Option DegreeAudit × AuditCache :=
  match c.entries.find? (fun p => decide (p.1 = key)) with
  | some e =>
      if now - e.2.cached_at < e.2.ttl then
        (some e.2.result, c)
      else
        (none, { c with entries := c.entries.eraseP (fun p => decide (p.1 = key)) })
  | none => (none, c)

/-- `AuditCache::insert_with_ttl` at clock value `now`: unconditional
overwrite, stamping the insertion time. -/
def insert_with_ttl (c : AuditCache) (key : SessionKey) (result : DegreeAudit)
    (ttl : Nat) (now : Nat) : AuditCache :=
  { c with
    entries :=
      (key, { result := result, cached_at := now, ttl := ttl })
        :: c.entries.eraseP (fun p => decide (p.1 = key)) }

/-- `AuditCache::insert`: insert with the default TTL. -/
def insert (c : AuditCache) (key : SessionKey) (result : DegreeAudit)
    (now : Nat) : AuditCache :=
  c.insert_with_ttl key result c.default_ttl now

/-- `AuditCache::invalidate`. -/
def invalidate (c : AuditCache) (key : SessionKey) : AuditCache :=
  { c with entries := c.entries.eraseP (fun p => decide (p.1 = key)) }

/-- `AuditCache::len`: number of entries, including expired ones. -/
def len (c : AuditCache) : Nat :=
  c.entries.length

end AuditCache

/-! ## Circuit breaker (degree_audit/cache.rs) -/

/-- `CircuitBreaker` state: failure counter, timestamp of the last recorded
failure, and the configured threshold and recovery window. -/
structure CircuitBreaker where
  failure_count : Nat
  last_failure : Option Nat
  threshold : Nat
  recovery_time : Nat
deriving DecidableEq

namespace CircuitBreaker

/-- `CircuitBreaker::new`. -/
def new (threshold recovery_time : Nat) : CircuitBreaker :=
  { failure_count := 0, last_failure := none
    threshold := threshold, recovery_time := recovery_time }

/-- `CircuitBreaker::reset`. -/
def reset (cb : CircuitBreaker) : CircuitBreaker :=
  { cb with failure_count := 0, last_failure := none }

/-- `CircuitBreaker::is_open` at clock value `now`. Mirrors cache.rs: below
threshold means closed; at or above threshold, a last failure older than the
recovery window triggers `reset` and reports closed; otherwise open. Returns
the answer together with the (possibly reset) state. -/
def is_open (cb : CircuitBreaker) (now : Nat) : Bool × CircuitBreaker :=
  if cb.failure_count < cb.threshold then
    (false, cb)
  else
    match cb.last_failure with
    | some last =>
        if now - last > cb.recovery_time then (false, cb.reset) else (true, cb)
    | none => (true, cb)

/-- `CircuitBreaker::record_success`: zero the counter (the last-failure
timestamp is left in place, as in the source). -/
def record_success (cb : CircuitBreaker) : CircuitBreaker :=
  { cb with failure_count := 0 }

/-- `CircuitBreaker::record_failure` at clock value `now`: increment the
counter and stamp the clock. -/
def record_failure (cb : CircuitBreaker) (now : Nat) : CircuitBreaker :=
  { cb with failure_count := cb.failure_count + 1, last_failure := some now }

end CircuitBreaker

/-- States of a `CircuitBreaker` reachable through the public operations
`new` / `record_failure` / `record_success` / `reset` / `is_open`, with a
monotone clock: `ReachableBreaker cb t` says `cb` can be observed at time
`t`, every recorded timestamp being at most `t`. -/
inductive ReachableBreaker : CircuitBreaker → Nat → Prop where
  | init (threshold recovery_time t : Nat) :
      ReachableBreaker (CircuitBreaker.new threshold recovery_time) t
  | fail {cb t} (h : ReachableBreaker cb t) (now : Nat) (hn : t ≤ now) :
      ReachableBreaker (cb.record_failure now) now
  | succ {cb t} (h : ReachableBreaker cb t) (now : Nat) (hn : t ≤ now) :
      ReachableBreaker cb.record_success now
  | rst {cb t} (h : ReachableBreaker cb t) (now : Nat) (hn : t ≤ now) :
      ReachableBreaker cb.reset now
  | check {cb t} (h : ReachableBreaker cb t) (now : Nat) (hn : t ≤ now) :
      ReachableBreaker (cb.is_open now).2 now

/-! ## Job discovery (degree_audit/job.rs)

The regex and scraper crates are external; the two regexes of job.rs are
embedded as executable functions with Rust-regex (leftmost, greedy with
backtracking) match semantics, and a parsed HTML document is embedded as the
selector results the code consumes. -/

/-- `JobStatus` from job.rs. -/
inductive JobStatus where
  | Processing
  | Complete
  | Error (reason : List Char)
  | Unknown (diagnostic : List Char)
deriving DecidableEq

namespace JobStatus

/-- `JobStatus::is_ready`. -/
def is_ready : JobStatus → Bool
  | Complete => true
  | _ => false

/-- `JobStatus::is_failed`. -/
def is_failed : JobStatus → Bool
  | Error _ => true
  | _ => false

end JobStatus

/-- `AuditJob` from job.rs. -/
structure AuditJob where
  job_id : List Char
  status : JobStatus
  raw_href : Option (List Char)
deriving DecidableEq

/-- Character class of the capture in `JOB_ID_REGEX = [?&]id=([^&\s]+)`. -/
def isIdCaptureChar (c : Char) : Bool :=
  !(c = '&' || isAsciiSpace c)

/-- Leftmost match of `JOB_ID_REGEX`, returning capture group 1: scan for a
`?` or `&` followed by the literal `id=` and at least one capture-class
character; the capture is the maximal run of capture-class characters. -/
def jobIdFind : List Char → Option (List Char)
  | [] => none
  | c :: rest =>
      if c = '?' || c = '&' then
        match rest with
        | 'i' :: 'd' :: '=' :: v =>
            let cap := v.takeWhile isIdCaptureChar
            if cap.isEmpty then jobIdFind rest else some cap
        | _ => jobIdFind rest
      else jobIdFind rest

/-- Character class `[!%21]` of `JOBQUEUE_REGEX`. -/
def isJQSep (c : Char) : Bool :=
  c = '!' || c = '%' || c = '2' || c = '1'

/-- Character class `[A-Za-z0-9_\-]` of `JOBQUEUE_REGEX`. -/
def isJQWord (c : Char) : Bool :=
  (decide ('A' ≤ c) && decide (c ≤ 'Z')) || (decide ('a' ≤ c) && decide (c ≤ 'z'))
    || (decide ('0' ≤ c) && decide (c ≤ '9')) || c = '_' || c = '-'

/-- Match of `JOBQUEUE_REGEX = JobQueueRun[!%21]+[A-Za-z0-9_\-]+` anchored at
the start of `s`, with greedy backtracking semantics: the separator group
takes the maximal `[!%21]` run; if no word character follows it, the group
shrinks from the right until the freed character is a word character (`1` or
`2`), which then forms the word group by itself. -/
def jobqueueMatchAt (s : List Char) : Option (List Char) :=
  if ("JobQueueRun".toList).isPrefixOf s then
    let rest := s.drop 11
    let a := rest.takeWhile isJQSep
    if a.isEmpty then none
    else
      let rest2 := rest.drop a.length
      let b := rest2.takeWhile isJQWord
      if b.isEmpty then
        match (a.drop 1).reverse.findIdx? isJQWord with
        | some r => some ("JobQueueRun".toList ++ a.take (a.length - r))
        | none => none
      else
        some ("JobQueueRun".toList ++ a ++ b)
  else none

/-- Leftmost match of `JOBQUEUE_REGEX` in `s` (`Regex::captures` group 0). -/
def jobqueueFind : List Char → Option (List Char)
  | [] => none
  | c :: t =>
      match jobqueueMatchAt (c :: t) with
      | some m => some m
      | none => jobqueueFind t

/-- One pass of `str::replace` specialised to a three-character pattern
starting with a percent sign: leftmost, non-overlapping occurrences of
`['%', p2, p3]` become `rep`. -/
def replaceEsc (p2 p3 rep : Char) : List Char → List Char
  | a :: b :: c :: rest =>
      if a = '%' ∧ b = p2 ∧ c = p3 then rep :: replaceEsc p2 p3 rep rest
      else a :: replaceEsc p2 p3 rep (b :: c :: rest)
  | a :: rest => a :: replaceEsc p2 p3 rep rest
  | [] => []

/-- `urlencoding_decode` from job.rs: the chained `replace` calls decoding
%21, %20, %2F, %3A, %3D, %26, %3F, in that order. -/
def urlencoding_decode (s : List Char) : List Char :=
  replaceEsc '3' 'F' '?'
    (replaceEsc '2' '6' '&'
      (replaceEsc '3' 'D' '='
        (replaceEsc '3' 'A' ':'
          (replaceEsc '2' 'F' '/'
            (replaceEsc '2' '0' ' '
              (replaceEsc '2' '1' '!' s))))))

/-- `extract_job_id_from_href` from job.rs: the `id=` query parameter first,
then the raw JobQueueRun pattern; either way the result is URL-decoded. -/
def extract_job_id_from_href (href : List Char) : Option (List Char) :=
  match jobIdFind href with
  | some captured => some (urlencoding_decode captured)
  | none =>
      match jobqueueFind href with
      | some m => some (urlencoding_decode m)
      | none => none

/-- `extract_status_from_row` from job.rs, applied to the row's collected
visible text and its class attribute (empty when absent). -/
def extract_status_from_row (rowText classAttr : List Char) : JobStatus :=
  let text := lowerStr rowText
  let cls := lowerStr classAttr
  if containsSub text "complete".toList || containsSub text "ready".toList
      || containsSub text "finished".toList then
    .Complete
  else if containsSub text "processing".toList || containsSub text "running".toList
      || containsSub text "pending".toList || containsSub text "queued".toList
      || containsSub text "in progress".toList then
    .Processing
  else if containsSub text "error".toList || containsSub text "failed".toList
      || containsSub text "failure".toList then
    .Error (trimStr text)
  else if containsSub cls "complete".toList || containsSub cls "success".toList then
    .Complete
  else if containsSub cls "pending".toList || containsSub cls "processing".toList then
    .Processing
  else if containsSub cls "error".toList || containsSub cls "fail".toList then
    .Error ("status class indicates failure".toList)
  else
    .Complete

/-- A table row as consumed by strategy 1 of `parse_newest_job`: the href of
the row's first read-link (`row.select(LINK_SELECTOR).next()`), the row's
collected text, and its class attribute. -/
structure HtmlRow where
  firstReadLinkHref : Option (List Char)
  rowText : List Char
  classAttr : List Char
deriving DecidableEq

/-- A parsed list.html document, embedded as the selector results the four
strategies of `parse_newest_job` consume: the table rows, the hrefs of the
read-link selector over the whole document, the hrefs of all anchors, and
the raw page text. -/
structure HtmlDoc where
  rows : List HtmlRow
  readLinkHrefs : List (List Char)
  allLinkHrefs : List (List Char)
  raw : List Char
deriving DecidableEq

/-- Strategy 1 of `parse_newest_job`: rows whose read-link yields a job id,
with the status classified from the row. -/
def discoverRowJobs (doc : HtmlDoc) : List AuditJob :=
  doc.rows.filterMap fun row =>
    row.firstReadLinkHref.bind fun href =>
      (extract_job_id_from_href href).map fun jid =>
        { job_id := jid
          status := extract_status_from_row row.rowText row.classAttr
          raw_href := some href }

/-- Strategy 2: any read-link in the document yielding a job id. -/
def discoverFallbackJobs (doc : HtmlDoc) : List AuditJob :=
  doc.readLinkHrefs.filterMap fun href =>
    (extract_job_id_from_href href).map fun jid =>
      { job_id := jid
        status := .Unknown ("fallback extraction".toList)
        raw_href := some href }

/-- Strategy 3: the JobQueueRun pattern anywhere in any anchor's href; the
matched text is used as job id without URL-decoding. -/
def discoverPatternJobs (doc : HtmlDoc) : List AuditJob :=
  doc.allLinkHrefs.filterMap fun href =>
    (jobqueueFind href).map fun m =>
      { job_id := m
        status := .Unknown ("pattern match".toList)
        raw_href := some href }

/-- Strategy 4: the JobQueueRun pattern anywhere in the raw page text. -/
def discoverTextJobs (doc : HtmlDoc) : List AuditJob :=
  match jobqueueFind doc.raw with
  | some m =>
      [{ job_id := m
         status := .Unknown ("text extraction".toList)
         raw_href := none }]
  | none => []

/-- `parse_newest_job` from job.rs: accumulate candidates strategy by
strategy, each later strategy running only when the list is still empty,
then return the first candidate, or NoJobFound when there is none. -/
def parse_newest_job (doc : HtmlDoc) : Except DegreeAuditError AuditJob :=
  let jobs := discoverRowJobs doc
  let jobs := if jobs.isEmpty then discoverFallbackJobs doc else jobs
  let jobs := if jobs.isEmpty then discoverPatternJobs doc else jobs
  let jobs := if jobs.isEmpty then discoverTextJobs doc else jobs
  match jobs with
  | [] => .error .NoJobFound
  | j :: _ => .ok j

/-- `page_indicates_processing` from job.rs. -/
def page_indicates_processing (html : List Char) : Bool :=
  let lower := lowerStr html
  containsSub lower "autopoll".toList || containsSub lower "processing".toList
    || containsSub lower "please wait".toList || containsSub lower "generating".toList
    || containsSub lower "in progress".toList

/-! ## Client protocol steps (degree_audit/client.rs)

The reqwest transport is external; each protocol step is embedded as the
function of the observed HTTP response it applies. A response carries its
resolved URL (after any redirects the configured client followed), status
code, Location header and body. -/

/-- An observed HTTP response at one protocol step. -/
structure HttpResponse where
  url : List Char
  status : Nat
  location : Option (List Char)
  body : List Char
deriving DecidableEq

/-- The SSO indicator substrings of `check_session_valid` in client.rs. -/
def sso_indicators : List (List Char) :=
  ["login.ucsd.edu".toList, "sso.ucsd.edu".toList, "shib".toList,
   "shibboleth".toList, "idp".toList, "saml".toList, "login?".toList,
   "/login".toList, "auth.ucsd.edu".toList]

/-- `check_session_valid` from client.rs: the lowercased resolved URL is
matched against every SSO indicator; a hit fails with SessionExpired
carrying the URL. -/
def check_session_valid (resp : HttpResponse) : Except DegreeAuditError Unit :=
  if sso_indicators.any (fun ind => containsSub (lowerStr resp.url) ind) then
    .error (.SessionExpired resp.url)
  else
    .ok ()

/-- Splits a URL at the first `://`, modelling the scheme/host extraction of
`url::Url::parse` used by `trigger_create`'s absolute-path branch. -/
def findSchemeSep : List Char → Option (List Char × List Char)
  | [] => none
  | ':' :: '/' :: '/' :: rest => some ([], rest)
  | c :: rest => (findSchemeSep rest).map (fun p => (c :: p.1, p.2))

/-- The host part after the scheme separator (`Url::host_str`): everything
up to the first path, port, query or fragment delimiter. -/
def urlHost (afterScheme : List Char) : List Char :=
  afterScheme.takeWhile (fun c => !(c = '/' || c = ':' || c = '?' || c = '#'))

/-- `response.status().is_success()`: a 2xx status. -/
def is_success_status (s : Nat) : Bool :=
  decide (200 ≤ s) && decide (s < 300)

/-- Step 1, `trigger_create` from client.rs, as a function of the observed
create.html response: the session check runs first; then 302/303/301 resolve
the Location header to an absolute list URL (absolute, host-relative or
path-relative), 200 falls back to the canonical list URL, and anything else
is an UnexpectedResponse. Error message texts not inspected by any claim are
fixed strings. -/
def trigger_create (base_url : List Char) (resp : HttpResponse) :
    Except DegreeAuditError (List Char) :=
  match check_session_valid resp with
  | .error e => .error e
  | .ok _ =>
      if resp.status = 302 || resp.status = 303 || resp.status = 301 then
        match resp.location with
        | none => .error (.UnexpectedResponse ("302 response missing Location header".toList))
        | some location =>
            if ("http".toList).isPrefixOf location then
              .ok location
            else if location.head? = some '/' then
              match findSchemeSep base_url with
              | none => .error (.UrlError ("relative URL without a base".toList))
              | some (scheme, rest) =>
                  .ok (scheme ++ "://".toList ++ urlHost rest ++ location)
            else
              .ok (base_url ++ ('/' :: location))
      else if resp.status = 200 then
        .ok (base_url ++ "/audit/list.html?autoPoll=true".toList)
      else
        .error (.UnexpectedResponse ("Expected 302 redirect from create.html".toList))

/-- Step 2, `fetch_list_and_discover` from client.rs, as a function of the
observed list.html response and of its parsed document (`doc` stands for the
scraper's parse of `resp.body`): session check, then success-status check,
then job discovery. -/
def fetch_list_and_discover (resp : HttpResponse) (doc : HtmlDoc) :
    Except DegreeAuditError AuditJob :=
  match check_session_valid resp with
  | .error e => .error e
  | .ok _ =>
      if !is_success_status resp.status then
        .error (.UnexpectedResponse ("list.html returned non-success status".toList))
      else
        parse_newest_job doc

/-- Step 4, `fetch_audit_html` from client.rs, as a function of the observed
read.html response: session check, then success-status check, then the body
is returned (a short body is only logged, never fatal). -/
def fetch_audit_html (resp : HttpResponse) : Except DegreeAuditError (List Char) :=
  match check_session_valid resp with
  | .error e => .error e
  | .ok _ =>
      if !is_success_status resp.status then
        .error (.UnexpectedResponse ("read.html returned non-success status".toList))
      else
        .ok resp.body

/-- Upper-case hexadecimal digit, as produced by the `{:02X}` formatting in
the `urlencoding` helper module of client.rs. -/
def hexUpper : Nat → Char
  | 0 => '0' | 1 => '1' | 2 => '2' | 3 => '3' | 4 => '4'
  | 5 => '5' | 6 => '6' | 7 => '7' | 8 => '8' | 9 => '9'
  | 10 => 'A' | 11 => 'B' | 12 => 'C' | 13 => 'D' | 14 => 'E' | _ => 'F'

/-- The unreserved set `A-Za-z0-9-_.~` of the `urlencoding` helper. -/
def isUnreserved (c : Char) : Bool :=
  (decide ('A' ≤ c) && decide (c ≤ 'Z')) || (decide ('a' ≤ c) && decide (c ≤ 'z'))
    || (decide ('0' ≤ c) && decide (c ≤ '9'))
    || c = '-' || c = '_' || c = '.' || c = '~'

/-- UTF-8 encoding of a character (`char::to_string().as_bytes()`). -/
def utf8Bytes (c : Char) : List Nat :=
  let n := c.toNat
  if n < 128 then [n]
  else if n < 2048 then [192 + n / 64, 128 + n % 64]
  else if n < 65536 then [224 + n / 4096, 128 + n / 64 % 64, 128 + n % 64]
  else [240 + n / 262144, 128 + n / 4096 % 64, 128 + n / 64 % 64, 128 + n % 64]

/-- One percent-escaped byte, `%XX` with upper-case hex. -/
def encodeByte (b : Nat) : List Char :=
  ['%', hexUpper (b / 16), hexUpper (b % 16)]

/-- `urlencoding::encode` from the helper module in client.rs: unreserved
characters pass through, every other character is escaped byte by byte. -/
def urlencoding_encode (s : List Char) : List Char :=
  s.flatMap fun c =>
    if isUnreserved c then [c] else (utf8Bytes c).flatMap encodeByte

/-- The action of one `replace` pass of `urlencoding_decode` on a single
encoded block: the matching three-character escape becomes the decoded
character, everything else is untouched. -/
def blockReplace (p2 p3 rep : Char) (bl : List Char) : List Char :=
  if bl = ['%', p2, p3] then [rep] else bl

/-- Blocks over which the `replace` passes act independently: a single
non-percent character, or a three-character escape whose two digits are not
percent signs. -/
def GoodBlock (bl : List Char) : Prop :=
  (∃ a, bl = [a] ∧ a ≠ '%') ∨ (∃ b c, bl = ['%', b, c] ∧ b ≠ '%' ∧ c ≠ '%')

/-- The combined action of all seven `replace` passes of
`urlencoding_decode` on a single block, in the order of the source. -/
def decodeBlock (bl : List Char) : List Char :=
  blockReplace '3' 'F' '?'
    (blockReplace '2' '6' '&'
      (blockReplace '3' 'D' '='
        (blockReplace '3' 'A' ':'
          (blockReplace '2' 'F' '/'
            (blockReplace '2' '0' ' '
              (blockReplace '2' '1' '!' bl))))))

/-- The encoded output of one character, as a list of blocks: one plain
block for an unreserved character, one escape block per UTF-8 byte
otherwise. -/
def charBlocks (c : Char) : List (List Char) :=
  if isUnreserved c then [[c]] else (utf8Bytes c).map encodeByte

/-- The characters whose encoding the decoder undoes exactly: the
unreserved set plus the seven characters whose escapes `urlencoding_decode`
knows. -/
def inRoundTripSet (c : Char) : Bool :=
  isUnreserved c || c = '!' || c = ' ' || c = '/' || c = ':' || c = '='
    || c = '&' || c = '?'

/-- The pre-jitter part of `calculate_poll_delay` from client.rs, in
milliseconds with u64 semantics: exponential backoff
`base * 2 ^ min(attempt - 1, 5)` capped at 10000. -/
def calculate_poll_delay_nojitter (base attempt : Nat) : Nat :=
  let exponential := (base * 2 ^ (min (attempt - 1) 5)) % 2 ^ 64
  min exponential 10000

/-- `calculate_poll_delay` from client.rs with the random draw exposed: the
jitter `gen_range(0..=capped / 5)` is passed in as `jitter`, constrained to
that inclusive range in the theorems about it. -/
def calculate_poll_delay (base attempt jitter : Nat) : Nat :=
  calculate_poll_delay_nojitter base attempt + jitter

/-- The outcome bookkeeping of `get_or_create_audit` (client.rs 176-197):
success records a breaker success and caches the audit under the session
key; failure records a breaker failure exactly when the error is retryable,
and leaves the cache alone. -/
def audit_outcome_bookkeeping (cb : CircuitBreaker) (cache : AuditCache)
    (key : SessionKey) (now : Nat)
    (result : Except DegreeAuditError DegreeAudit) :
    CircuitBreaker × AuditCache :=
  match result with
  | .ok audit => (cb.record_success, cache.insert key audit now)
  | .error e => (if e.is_retryable then cb.record_failure now else cb, cache)

/-- One caller's post-lock section in `get_or_create_audit` (client.rs
161-184), for a non-force-refresh call at time `now` whose protocol
execution would succeed with `freshAudit`: re-check the cache; on a hit
return the cached audit with no protocol step, on a miss run the protocol
and cache the result. The third component counts protocol executions. -/
def locked_audit_call (key : SessionKey) (now : Nat) (freshAudit : DegreeAudit)
    (st : AuditCache × Nat) : DegreeAudit × AuditCache × Nat :=
  match st.1.get key now with
  | (some cached, c2) => (cached, c2, st.2)
  | (none, c2) => (freshAudit, c2.insert key freshAudit now, st.2 + 1)

/-- N callers for the same session key, serialized in lock-acquisition order
by the per-session `tokio::sync::Mutex` (mutual exclusion is the lock's
guarantee; the lock body itself is sequential code). Returns every caller's
result, the final cache, and the total number of protocol executions. -/
def run_lock_queue (key : SessionKey) (now : Nat) (freshAudit : DegreeAudit) :
    Nat → AuditCache × Nat → List DegreeAudit × AuditCache × Nat
  | 0, st => ([], st.1, st.2)
  | n + 1, st =>
      let r := locked_audit_call key now freshAudit st
      let rest := run_lock_queue key now freshAudit n (r.2.1, r.2.2)
      (r.1 :: rest.1, rest.2)

/-- The breaker state of the spec's threshold-3 scenario: a fresh breaker
with threshold 3 and a 30-tick recovery window after three failures
recorded at time 0. -/
def breakerThree : CircuitBreaker :=
  (((CircuitBreaker.new 3 30).record_failure 0).record_failure
      0).record_failure 0

/-! ## Theorems -/

/-- An `is_open` check either leaves the breaker state unchanged or resets
it (the implicit recovery reset). -/
theorem is_open_snd_cases (cb : CircuitBreaker) (now : Nat) :
    (cb.is_open now).2 = cb ∨ (cb.is_open now).2 = cb.reset := by
  unfold CircuitBreaker.is_open
  by_cases hc : cb.failure_count < cb.threshold
  · simp [hc]
  · rcases hl : cb.last_failure with _ | last
    · simp [hc, hl]
    · by_cases hw : now - last > cb.recovery_time
      · simp [hc, hl, hw]
      · simp [hc, hl, hw]

/-- C1: a cache entry inserted with TTL `t` is returned by `get` while the
elapsed time is strictly below `t`; at or after `t` the `get` returns none,
removes the entry, and the map's `len` strictly decreases. -/
theorem cache_ttl_expiry (cache : AuditCache) (key : SessionKey)
    (v : DegreeAudit) (ttl t_ins now : Nat) (h_time : t_ins ≤ now) :
    (now - t_ins < ttl →
        (cache.insert_with_ttl key v ttl t_ins).get key now
          = (some v, cache.insert_with_ttl key v ttl t_ins)) ∧
      (ttl ≤ now - t_ins →
        ((cache.insert_with_ttl key v ttl t_ins).get key now).1 = none ∧
          (((cache.insert_with_ttl key v ttl t_ins).get key now).2).len
            < (cache.insert_with_ttl key v ttl t_ins).len) := by
  have hfind :
      ((cache.insert_with_ttl key v ttl t_ins).entries).find?
          (fun p => decide (p.1 = key))
        = some (key, { result := v, cached_at := t_ins, ttl := ttl }) := by
    simp [AuditCache.insert_with_ttl]
  constructor
  · intro hlt
    simp [AuditCache.get, hfind, hlt]
  · intro hge
    have hnlt : ¬(now - t_ins < ttl) := by omega
    simp [AuditCache.get, hfind, hnlt, AuditCache.len,
      AuditCache.insert_with_ttl]

/-- C1 witness: a concrete entry with TTL 10 read 3 ticks and 10 ticks after
insertion. -/
theorem cache_ttl_expiry_witness :
    ((AuditCache.new 300).insert_with_ttl { hash := "k".toList }
          { audit_id := "a".toList } 10 5).get { hash := "k".toList } 8
        = (some { audit_id := "a".toList },
            (AuditCache.new 300).insert_with_ttl { hash := "k".toList }
              { audit_id := "a".toList } 10 5) ∧
      (((AuditCache.new 300).insert_with_ttl { hash := "k".toList }
            { audit_id := "a".toList } 10 5).get { hash := "k".toList } 15).1
        = none := by
  refine ⟨(cache_ttl_expiry (AuditCache.new 300) { hash := "k".toList }
      { audit_id := "a".toList } 10 5 8 (by decide)).1 (by decide),
    ((cache_ttl_expiry (AuditCache.new 300) { hash := "k".toList }
      { audit_id := "a".toList } 10 5 15 (by decide)).2 (by decide)).1⟩

/-- In every reachable breaker state a positive failure count comes with a
last-failure timestamp no later than the current time. -/
theorem reachable_breaker_last_failure {cb : CircuitBreaker} {t : Nat}
    (h : ReachableBreaker cb t) :
    1 ≤ cb.failure_count → ∃ s, cb.last_failure = some s ∧ s ≤ t := by
  induction h with
  | init threshold recovery_time t =>
      intro h1
      simp [CircuitBreaker.new] at h1
  | fail h now hn ih =>
      intro _
      exact ⟨now, rfl, le_refl now⟩
  | succ h now hn ih =>
      intro h1
      simp [CircuitBreaker.record_success] at h1
  | rst h now hn ih =>
      intro h1
      simp [CircuitBreaker.reset] at h1
  | check h now hn ih =>
      rename_i cb t
      intro h1
      rcases is_open_snd_cases cb now with heq | heq
      · rw [heq] at h1 ⊢
        obtain ⟨s, hs, hst⟩ := ih h1
        exact ⟨s, hs, hst.trans hn⟩
      · rw [heq] at h1
        simp [CircuitBreaker.reset] at h1

/-- C2: in every reachable breaker state with a positive threshold,
`is_open` answers true exactly when the failure count has reached the
threshold and the recovery window has not yet elapsed since the last
recorded failure; `record_success` always closes the breaker; an elapsed
recovery window closes it with no success recorded; and the threshold-3
scenario behaves as specified. -/
theorem circuit_breaker_open_iff :
    (∀ (cb : CircuitBreaker) (t now : Nat), ReachableBreaker cb t →
        t ≤ now → 1 ≤ cb.threshold →
        ((cb.is_open now).1 = true ↔
          cb.threshold ≤ cb.failure_count ∧
            ∃ s, cb.last_failure = some s ∧ now - s ≤ cb.recovery_time)) ∧
      (∀ (cb : CircuitBreaker) (now : Nat), 1 ≤ cb.threshold →
        (cb.record_success.is_open now).1 = false) ∧
      (∀ (cb : CircuitBreaker) (now s : Nat), cb.last_failure = some s →
        cb.recovery_time < now - s → (cb.is_open now).1 = false) ∧
      ((breakerThree.is_open 0).1 = true ∧
        (breakerThree.record_success.is_open 0).1 = false ∧
        (breakerThree.is_open 31).1 = false) := by
  refine ⟨?_, ?_, ?_, by decide, by decide, by decide⟩
  · intro cb t now hreach htn hthr
    unfold CircuitBreaker.is_open
    by_cases hcount : cb.failure_count < cb.threshold
    · rw [if_pos hcount]
      refine iff_of_false (by simp) ?_
      rintro ⟨hthr', -⟩
      omega
    · have hcount' : cb.threshold ≤ cb.failure_count := by omega
      have hpos : 1 ≤ cb.failure_count := by omega
      obtain ⟨s, hs, hst⟩ := reachable_breaker_last_failure hreach hpos
      rw [if_neg hcount, hs]
      dsimp only
      by_cases hwin : now - s > cb.recovery_time
      · rw [if_pos hwin]
        refine iff_of_false (by simp) ?_
        rintro ⟨-, s', hs', hle⟩
        injection hs' with heq
        omega
      · rw [if_neg hwin]
        exact iff_of_true rfl ⟨hcount', s, rfl, by omega⟩
  · intro cb now hthr
    have h0 : cb.record_success.failure_count < cb.record_success.threshold := by
      simp [CircuitBreaker.record_success]
      omega
    unfold CircuitBreaker.is_open
    rw [if_pos h0]
  · intro cb now s hs hwin
    unfold CircuitBreaker.is_open
    by_cases hc : cb.failure_count < cb.threshold
    · rw [if_pos hc]
    · rw [if_neg hc, hs]
      dsimp only
      rw [if_pos hwin]

/-- C2 witness: the iff applied to the reachable state after three failures
at time 0 with threshold 3, checked at time 0. -/
theorem circuit_breaker_open_iff_witness :
    (breakerThree.is_open 0).1 = true := by
  have hreach : ReachableBreaker breakerThree 0 :=
    .fail (.fail (.fail (.init 3 30 0) 0 (le_refl 0)) 0 (le_refl 0)) 0
      (le_refl 0)
  exact (circuit_breaker_open_iff.1 _ 0 0 hreach (le_refl 0)
      (by decide)).mpr ⟨by decide, 0, rfl, by decide⟩

/-- C3: after a failed audit flow the breaker counter is incremented exactly
for the retryable kinds Network, PollTimeout and UnexpectedResponse, and is
left unchanged for every other error kind. -/
theorem breaker_counts_only_retryable :
    (∀ (cb : CircuitBreaker) (cache : AuditCache) (key : SessionKey)
        (now : Nat) (m : List Char),
        ((audit_outcome_bookkeeping cb cache key now
            (.error (.Network m))).1).failure_count = cb.failure_count + 1) ∧
    (∀ cb cache key now (a e : Nat),
        ((audit_outcome_bookkeeping cb cache key now
            (.error (.PollTimeout a e))).1).failure_count
          = cb.failure_count + 1) ∧
    (∀ cb cache key now (m : List Char),
        ((audit_outcome_bookkeeping cb cache key now
            (.error (.UnexpectedResponse m))).1).failure_count
          = cb.failure_count + 1) ∧
    (∀ cb cache key now (m : List Char),
        ((audit_outcome_bookkeeping cb cache key now
            (.error (.SessionExpired m))).1).failure_count
          = cb.failure_count) ∧
    (∀ cb cache key now (m : List Char),
        ((audit_outcome_bookkeeping cb cache key now
            (.error (.NoSession m))).1).failure_count = cb.failure_count) ∧
    (∀ cb cache key now,
        ((audit_outcome_bookkeeping cb cache key now
            (.error .NoJobFound)).1).failure_count = cb.failure_count) ∧
    (∀ cb cache key now (m : List Char),
        ((audit_outcome_bookkeeping cb cache key now
            (.error (.JobFailed m))).1).failure_count = cb.failure_count) ∧
    (∀ cb cache key now (m : List Char),
        ((audit_outcome_bookkeeping cb cache key now
            (.error (.ParseError m))).1).failure_count = cb.failure_count) ∧
    (∀ cb cache key now (m : List Char),
        ((audit_outcome_bookkeeping cb cache key now
            (.error (.UrlError m))).1).failure_count = cb.failure_count) ∧
    (∀ cb cache key now,
        ((audit_outcome_bookkeeping cb cache key now
            (.error .CircuitBreakerOpen)).1).failure_count
          = cb.failure_count) ∧
    (∀ cb cache key now,
        ((audit_outcome_bookkeeping cb cache key now
            (.error .OperationInProgress)).1).failure_count
          = cb.failure_count) ∧
    (∀ cb cache key now (m : List Char),
        ((audit_outcome_bookkeeping cb cache key now
            (.error (.CookieFetchError m))).1).failure_count
          = cb.failure_count) := by
  refine ⟨?_, ?_, ?_, ?_, ?_, ?_, ?_, ?_, ?_, ?_, ?_, ?_⟩ <;>
    intros <;> rfl

/-- C8: with any attempt number at least 1 and no u64 overflow, the
pre-jitter delay equals `min (base * 2 ^ min (attempt - 1) 5) 10000`, is
non-decreasing in the attempt number, strictly increases over attempts
1, 2, 3 at base 500, never exceeds 10000, and the final delay adds any
jitter drawn from the closed interval `[0, delay / 5]`. -/
theorem poll_delay_backoff (base a : Nat) (h1 : 1 ≤ a)
    (h2 : base * 2 ^ 5 < 2 ^ 64) :
    (calculate_poll_delay_nojitter base a
        = min (base * 2 ^ (min (a - 1) 5)) 10000) ∧
      (∀ a2, a ≤ a2 →
        calculate_poll_delay_nojitter base a
          ≤ calculate_poll_delay_nojitter base a2) ∧
      (calculate_poll_delay_nojitter 500 1 < calculate_poll_delay_nojitter 500 2 ∧
        calculate_poll_delay_nojitter 500 2 < calculate_poll_delay_nojitter 500 3) ∧
      calculate_poll_delay_nojitter base a ≤ 10000 ∧
      (∀ j, j ≤ calculate_poll_delay_nojitter base a / 5 →
        calculate_poll_delay base a j
          = calculate_poll_delay_nojitter base a + j) := by
  have hexp : ∀ b : Nat, base * 2 ^ (min b 5) < 2 ^ 64 := by
    intro b
    calc base * 2 ^ (min b 5) ≤ base * 2 ^ 5 :=
          Nat.mul_le_mul_left base (Nat.pow_le_pow_right (by omega)
            (min_le_right b 5))
      _ < 2 ^ 64 := h2
  have hno : ∀ b : Nat, calculate_poll_delay_nojitter base b
      = min (base * 2 ^ (min (b - 1) 5)) 10000 := by
    intro b
    unfold calculate_poll_delay_nojitter
    rw [Nat.mod_eq_of_lt (hexp (b - 1))]
  refine ⟨hno a, ?_, by decide, ?_, ?_⟩
  · intro a2 ha2
    rw [hno a, hno a2]
    refine min_le_min ?_ (le_refl 10000)
    exact Nat.mul_le_mul_left base (Nat.pow_le_pow_right (by omega)
      (min_le_min (by omega) (le_refl 5)))
  · rw [hno a]
    exact min_le_right _ 10000
  · intro j hj
    rfl

/-- C8 witness: the backoff formula at base 500, attempt 1. -/
theorem poll_delay_backoff_witness :
    calculate_poll_delay_nojitter 500 1
      = min (500 * 2 ^ (min (1 - 1) 5)) 10000 :=
  (poll_delay_backoff 500 1 (by decide) (by decide)).1

/-- Every candidate produced by strategy 2 carries the fallback-extraction
diagnostic status. -/
theorem mem_discoverFallbackJobs {doc : HtmlDoc} {j : AuditJob}
    (h : j ∈ discoverFallbackJobs doc) :
    j.status = .Unknown ("fallback extraction".toList) := by
  simp only [discoverFallbackJobs, List.mem_filterMap] at h
  obtain ⟨href, -, hmap⟩ := h
  cases hid : extract_job_id_from_href href with
  | none =>
      rw [hid] at hmap
      simp at hmap
  | some jid =>
      rw [hid] at hmap
      simp at hmap
      subst hmap
      rfl

/-- Every candidate produced by strategy 3 carries the pattern-match
diagnostic status. -/
theorem mem_discoverPatternJobs {doc : HtmlDoc} {j : AuditJob}
    (h : j ∈ discoverPatternJobs doc) :
    j.status = .Unknown ("pattern match".toList) := by
  simp only [discoverPatternJobs, List.mem_filterMap] at h
  obtain ⟨href, -, hmap⟩ := h
  cases hid : jobqueueFind href with
  | none =>
      rw [hid] at hmap
      simp at hmap
  | some m =>
      rw [hid] at hmap
      simp at hmap
      subst hmap
      rfl

/-- Every candidate produced by strategy 4 carries the text-extraction
diagnostic status. -/
theorem mem_discoverTextJobs {doc : HtmlDoc} {j : AuditJob}
    (h : j ∈ discoverTextJobs doc) :
    j.status = .Unknown ("text extraction".toList) := by
  unfold discoverTextJobs at h
  rcases hm : jobqueueFind doc.raw with _ | m <;> rw [hm] at h
  · simp at h
  · simp at h
    subst h
    rfl

/-- C4: `parse_newest_job` tries the four strategies in their fixed order,
returns the head candidate of the first strategy that yields one (with the
documented diagnostic statuses for strategies 2, 3, 4), and fails with
NoJobFound exactly when all four strategies yield nothing. -/
theorem parse_newest_job_cascade (doc : HtmlDoc) :
    (∀ j, (discoverRowJobs doc).head? = some j →
        parse_newest_job doc = .ok j) ∧
      (discoverRowJobs doc = [] →
        ∀ j, (discoverFallbackJobs doc).head? = some j →
          parse_newest_job doc = .ok j ∧
            j.status = .Unknown ("fallback extraction".toList)) ∧
      (discoverRowJobs doc = [] → discoverFallbackJobs doc = [] →
        ∀ j, (discoverPatternJobs doc).head? = some j →
          parse_newest_job doc = .ok j ∧
            j.status = .Unknown ("pattern match".toList)) ∧
      (discoverRowJobs doc = [] → discoverFallbackJobs doc = [] →
        discoverPatternJobs doc = [] →
        ∀ j, (discoverTextJobs doc).head? = some j →
          parse_newest_job doc = .ok j ∧
            j.status = .Unknown ("text extraction".toList)) ∧
      (parse_newest_job doc = .error .NoJobFound ↔
        (discoverRowJobs doc = [] ∧ discoverFallbackJobs doc = [] ∧
          discoverPatternJobs doc = [] ∧ discoverTextJobs doc = [])) := by
  refine ⟨?_, ?_, ?_, ?_, ?_⟩
  · intro j hj
    rcases h1 : discoverRowJobs doc with _ | ⟨a, t⟩
    · rw [h1] at hj
      simp at hj
    · rw [h1] at hj
      simp at hj
      subst hj
      simp [parse_newest_job, h1]
  · intro h1 j hj
    rcases h2 : discoverFallbackJobs doc with _ | ⟨a, t⟩
    · rw [h2] at hj
      simp at hj
    · rw [h2] at hj
      simp at hj
      subst hj
      refine ⟨by simp [parse_newest_job, h1, h2], ?_⟩
      have hmem : a ∈ discoverFallbackJobs doc := by
        rw [h2]
        exact List.mem_cons_self a t
      exact mem_discoverFallbackJobs hmem
  · intro h1 h2 j hj
    rcases h3 : discoverPatternJobs doc with _ | ⟨a, t⟩
    · rw [h3] at hj
      simp at hj
    · rw [h3] at hj
      simp at hj
      subst hj
      refine ⟨by simp [parse_newest_job, h1, h2, h3], ?_⟩
      have hmem : a ∈ discoverPatternJobs doc := by
        rw [h3]
        exact List.mem_cons_self a t
      exact mem_discoverPatternJobs hmem
  · intro h1 h2 h3 j hj
    rcases h4 : discoverTextJobs doc with _ | ⟨a, t⟩
    · rw [h4] at hj
      simp at hj
    · rw [h4] at hj
      simp at hj
      subst hj
      refine ⟨by simp [parse_newest_job, h1, h2, h3, h4], ?_⟩
      have hmem : a ∈ discoverTextJobs doc := by
        rw [h4]
        exact List.mem_cons_self a t
      exact mem_discoverTextJobs hmem
  · rcases h1 : discoverRowJobs doc with _ | ⟨a1, t1⟩ <;>
      rcases h2 : discoverFallbackJobs doc with _ | ⟨a2, t2⟩ <;>
      rcases h3 : discoverPatternJobs doc with _ | ⟨a3, t3⟩ <;>
      rcases h4 : discoverTextJobs doc with _ | ⟨a4, t4⟩ <;>
      simp [parse_newest_job, h1, h2, h3, h4]

/-- C4 witness: a document whose only signal is a JobQueueRun token in the
raw page text, resolved by strategy 4. -/
theorem parse_newest_job_cascade_witness :
    parse_newest_job
        { rows := [], readLinkHrefs := [], allLinkHrefs := [],
          raw := "<body>JobQueueRun!!!!X1</body>".toList }
      = .ok
          { job_id := "JobQueueRun!!!!X1".toList
            status := .Unknown ("text extraction".toList)
            raw_href := none } := by
  exact ((parse_newest_job_cascade _).2.2.2.1 (by decide) (by decide)
      (by decide) _ (by decide)).1

/-- C5: when a row's lowercased text contains no complete/processing/error
keyword and its lowercased class attribute contains no complete/pending/
error class hint, the status classification defaults to Complete. -/
theorem status_default_complete (rowText classAttr : List Char)
    (h1 : containsSub (lowerStr rowText) ("complete".toList) = false)
    (h2 : containsSub (lowerStr rowText) ("ready".toList) = false)
    (h3 : containsSub (lowerStr rowText) ("finished".toList) = false)
    (h4 : containsSub (lowerStr rowText) ("processing".toList) = false)
    (h5 : containsSub (lowerStr rowText) ("running".toList) = false)
    (h6 : containsSub (lowerStr rowText) ("pending".toList) = false)
    (h7 : containsSub (lowerStr rowText) ("queued".toList) = false)
    (h8 : containsSub (lowerStr rowText) ("in progress".toList) = false)
    (h9 : containsSub (lowerStr rowText) ("error".toList) = false)
    (h10 : containsSub (lowerStr rowText) ("failed".toList) = false)
    (h11 : containsSub (lowerStr rowText) ("failure".toList) = false)
    (h12 : containsSub (lowerStr classAttr) ("complete".toList) = false)
    (h13 : containsSub (lowerStr classAttr) ("success".toList) = false)
    (h14 : containsSub (lowerStr classAttr) ("pending".toList) = false)
    (h15 : containsSub (lowerStr classAttr) ("processing".toList) = false)
    (h16 : containsSub (lowerStr classAttr) ("error".toList) = false)
    (h17 : containsSub (lowerStr classAttr) ("fail".toList) = false) :
    extract_status_from_row rowText classAttr = .Complete := by
  have c1 : (containsSub (lowerStr rowText) ("complete".toList)
      || containsSub (lowerStr rowText) ("ready".toList)
      || containsSub (lowerStr rowText) ("finished".toList)) = false := by
    rw [h1, h2, h3]
    rfl
  have c2 : (containsSub (lowerStr rowText) ("processing".toList)
      || containsSub (lowerStr rowText) ("running".toList)
      || containsSub (lowerStr rowText) ("pending".toList)
      || containsSub (lowerStr rowText) ("queued".toList)
      || containsSub (lowerStr rowText) ("in progress".toList)) = false := by
    rw [h4, h5, h6, h7, h8]
    rfl
  have c3 : (containsSub (lowerStr rowText) ("error".toList)
      || containsSub (lowerStr rowText) ("failed".toList)
      || containsSub (lowerStr rowText) ("failure".toList)) = false := by
    rw [h9, h10, h11]
    rfl
  have c4 : (containsSub (lowerStr classAttr) ("complete".toList)
      || containsSub (lowerStr classAttr) ("success".toList)) = false := by
    rw [h12, h13]
    rfl
  have c5 : (containsSub (lowerStr classAttr) ("pending".toList)
      || containsSub (lowerStr classAttr) ("processing".toList)) = false := by
    rw [h14, h15]
    rfl
  have c6 : (containsSub (lowerStr classAttr) ("error".toList)
      || containsSub (lowerStr classAttr) ("fail".toList)) = false := by
    rw [h16, h17]
    rfl
  simp only [extract_status_from_row, c1, c2, c3, c4, c5, c6]
  rfl

/-- C5 witness: a row with neutral text and class falls through to
Complete. -/
theorem status_default_complete_witness :
    extract_status_from_row ("Audit 42".toList) ("row-odd".toList)
      = .Complete :=
  status_default_complete ("Audit 42".toList) ("row-odd".toList)
    (by decide) (by decide) (by decide) (by decide) (by decide) (by decide)
    (by decide) (by decide) (by decide) (by decide) (by decide) (by decide)
    (by decide) (by decide) (by decide) (by decide) (by decide)

/-- C6: a resolved URL matching any SSO/login indicator makes each protocol
step fail with SessionExpired carrying that URL, before and regardless of
any status-code handling. -/
theorem sso_redirect_expires_session (base_url : List Char)
    (resp : HttpResponse) (doc : HtmlDoc)
    (h : (sso_indicators.any fun ind => containsSub (lowerStr resp.url) ind)
        = true) :
    trigger_create base_url resp = .error (.SessionExpired resp.url) ∧
      fetch_list_and_discover resp doc = .error (.SessionExpired resp.url) ∧
      fetch_audit_html resp = .error (.SessionExpired resp.url) := by
  have hcheck : check_session_valid resp = .error (.SessionExpired resp.url) := by
    simp [check_session_valid, h]
  refine ⟨?_, ?_, ?_⟩ <;>
    simp [trigger_create, fetch_list_and_discover, fetch_audit_html, hcheck]

/-- C6 witness: a 200 response whose resolved URL is the SSO login host
fails all three steps with SessionExpired. -/
theorem sso_redirect_expires_session_witness :
    trigger_create ("https://act.ucsd.edu/studentDarsSelfservice".toList)
        { url := "https://login.ucsd.edu/sso/auth".toList, status := 200,
          location := none, body := [] }
      = .error (.SessionExpired ("https://login.ucsd.edu/sso/auth".toList)) :=
  (sso_redirect_expires_session
      ("https://act.ucsd.edu/studentDarsSelfservice".toList)
      { url := "https://login.ucsd.edu/sso/auth".toList, status := 200,
        location := none, body := [] }
      { rows := [], readLinkHrefs := [], allLinkHrefs := [], raw := [] }
      (by decide)).1

/-- C7: the job id is extracted from the `id=` query parameter with common
percent-encodings decoded, both in the plain form and with an interposed
jsessionid path segment. -/
theorem extract_job_id_decoding :
    extract_job_id_from_href
        ("read.html?id=JobQueueRun%21%21%21%21ABC123".toList)
      = some ("JobQueueRun!!!!ABC123".toList) ∧
    extract_job_id_from_href
        ("read.html;jsessionid=XYZ123?id=JobQueueRun!!!!ABC123".toList)
      = some ("JobQueueRun!!!!ABC123".toList) := by
  exact ⟨by decide, by decide⟩

/-- Once the cache holds the audit for the session key (and returns it
unchanged), every further lock-serialized caller takes the cached value and
performs no protocol execution. -/
theorem run_lock_queue_cached (key : SessionKey) (now : Nat)
    (audit : DegreeAudit) (c : AuditCache)
    (hget : c.get key now = (some audit, c)) :
    ∀ (m cnt : Nat), run_lock_queue key now audit m (c, cnt)
      = (List.replicate m audit, c, cnt) := by
  intro m
  induction m with
  | zero => intro cnt; rfl
  | succ k ih =>
      intro cnt
      unfold run_lock_queue locked_audit_call
      rw [hget]
      dsimp only
      rw [ih cnt]
      simp [List.replicate_succ]

/-- C9: starting from an empty cache, N lock-serialized callers for the same
session key execute the protocol exactly once — the first lock holder runs
it and caches the result, every later caller's post-lock re-check hits the
cache — and all N callers receive the same audit. -/
theorem lock_queue_single_execution (key : SessionKey) (now : Nat)
    (audit : DegreeAudit) (cache : AuditCache)
    (hempty : cache.entries = []) (httl : 1 ≤ cache.default_ttl)
    (n : Nat) (hn : 1 ≤ n) :
    run_lock_queue key now audit n (cache, 0)
        = (List.replicate n audit, cache.insert key audit now, 1) ∧
      (run_lock_queue key now audit n (cache, 0)).2.2 = 1 ∧
      (run_lock_queue key now audit n (cache, 0)).1.length = n ∧
      ∀ r ∈ (run_lock_queue key now audit n (cache, 0)).1, r = audit := by
  obtain ⟨m, rfl⟩ : ∃ m, n = m + 1 := ⟨n - 1, by omega⟩
  have hget0 : cache.get key now = (none, cache) := by
    simp [AuditCache.get, hempty]
  have hc1 : (cache.insert key audit now).get key now
      = (some audit, cache.insert key audit now) := by
    simp [AuditCache.get, AuditCache.insert, AuditCache.insert_with_ttl,
      hempty]
    omega
  have hmain : run_lock_queue key now audit (m + 1) (cache, 0)
      = (List.replicate (m + 1) audit, cache.insert key audit now, 1) := by
    unfold run_lock_queue locked_audit_call
    rw [hget0]
    dsimp only
    rw [run_lock_queue_cached key now audit _ hc1 m 1]
    simp [List.replicate_succ]
  refine ⟨hmain, by rw [hmain], by rw [hmain]; simp, ?_⟩
  rw [hmain]
  intro r hr
  exact List.eq_of_mem_replicate hr

/-- C9 witness: three callers, one execution, equal results. -/
theorem lock_queue_single_execution_witness :
    run_lock_queue { hash := "k".toList } 0 { audit_id := "a".toList } 3
        (AuditCache.new 300, 0)
      = (List.replicate 3 { audit_id := "a".toList },
          (AuditCache.new 300).insert { hash := "k".toList }
            { audit_id := "a".toList } 0, 1) :=
  (lock_queue_single_execution { hash := "k".toList } 0
      { audit_id := "a".toList } (AuditCache.new 300) rfl (by decide) 3
      (by decide)).1

/-- A `replace` pass skips a leading character that is not a percent sign
(every pattern starts with one). -/
theorem replaceEsc_cons_ne (p2 p3 rep a : Char) (ha : a ≠ '%')
    (t : List Char) :
    replaceEsc p2 p3 rep (a :: t) = a :: replaceEsc p2 p3 rep t := by
  cases t with
  | nil => rfl
  | cons b t2 =>
      cases t2 with
      | nil => rfl
      | cons c ts =>
          show replaceEsc p2 p3 rep (a :: b :: c :: ts) = _
          simp only [replaceEsc]
          rw [if_neg]
          rintro ⟨h1, -⟩
          exact ha h1

/-- A `replace` pass rewrites a leading occurrence of its pattern. -/
theorem replaceEsc_cons_hit (p2 p3 rep : Char) (t : List Char) :
    replaceEsc p2 p3 rep ('%' :: p2 :: p3 :: t)
      = rep :: replaceEsc p2 p3 rep t := by
  simp [replaceEsc]

/-- A `replace` pass over a flattened list of good blocks acts on each block
independently. -/
theorem replaceEsc_blocks (p2 p3 rep : Char) (blocks : List (List Char))
    (h : ∀ bl ∈ blocks, GoodBlock bl) :
    replaceEsc p2 p3 rep blocks.flatten
      = (blocks.map (blockReplace p2 p3 rep)).flatten := by
  induction blocks with
  | nil => rfl
  | cons bl rest ih =>
      have hbl : GoodBlock bl := h bl (List.mem_cons_self bl rest)
      have hrest : ∀ b ∈ rest, GoodBlock b :=
        fun b hb => h b (List.mem_cons_of_mem bl hb)
      rw [List.flatten_cons, List.map_cons, List.flatten_cons]
      rcases hbl with ⟨a, rfl, ha⟩ | ⟨b, c, rfl, hb, hc⟩
      · simp only [List.cons_append, List.nil_append]
        rw [replaceEsc_cons_ne p2 p3 rep a ha, ih hrest]
        have hbr : blockReplace p2 p3 rep [a] = [a] := by
          unfold blockReplace
          rw [if_neg]
          intro heq
          simp at heq
        rw [hbr]
        rfl
      · simp only [List.cons_append, List.nil_append]
        by_cases hpat : b = p2 ∧ c = p3
        · obtain ⟨rfl, rfl⟩ := hpat
          rw [replaceEsc_cons_hit, ih hrest]
          have hbr : blockReplace b c rep ['%', b, c] = [rep] := by
            unfold blockReplace
            rw [if_pos rfl]
          rw [hbr]
          rfl
        · have hstep : replaceEsc p2 p3 rep ('%' :: b :: c :: rest.flatten)
              = '%' :: replaceEsc p2 p3 rep (b :: c :: rest.flatten) := by
            simp only [replaceEsc]
            rw [if_neg]
            rintro ⟨-, hb2, hc2⟩
            exact hpat ⟨hb2, hc2⟩
          rw [hstep, replaceEsc_cons_ne p2 p3 rep b hb,
            replaceEsc_cons_ne p2 p3 rep c hc, ih hrest]
          have hbr : blockReplace p2 p3 rep ['%', b, c] = ['%', b, c] := by
            unfold blockReplace
            rw [if_neg]
            intro heq
            injection heq with a1 a2
            injection a2 with a3 a4
            injection a4 with a5 a6
            exact hpat ⟨a3, a5⟩
          rw [hbr]
          rfl

/-- A block stays good under one `replace` pass whose replacement character
is not a percent sign. -/
theorem goodBlock_blockReplace (p2 p3 rep : Char) (hrep : rep ≠ '%')
    (bl : List Char) (h : GoodBlock bl) :
    GoodBlock (blockReplace p2 p3 rep bl) := by
  unfold blockReplace
  split
  · exact Or.inl ⟨rep, rfl, hrep⟩
  · exact h

/-- The whole decoder over a flattened list of good blocks acts on each
block independently. -/
theorem decode_flatten_blocks (blocks : List (List Char))
    (h : ∀ bl ∈ blocks, GoodBlock bl) :
    urlencoding_decode blocks.flatten = (blocks.map decodeBlock).flatten := by
  have g1 : ∀ bl ∈ blocks.map (blockReplace '2' '1' '!'), GoodBlock bl := by
    intro bl hbl
    obtain ⟨b0, hb0, rfl⟩ := List.mem_map.mp hbl
    exact goodBlock_blockReplace _ _ _ (by decide) b0 (h b0 hb0)
  have g2 : ∀ bl ∈ (blocks.map (blockReplace '2' '1' '!')).map
      (blockReplace '2' '0' ' '), GoodBlock bl := by
    intro bl hbl
    obtain ⟨b0, hb0, rfl⟩ := List.mem_map.mp hbl
    exact goodBlock_blockReplace _ _ _ (by decide) b0 (g1 b0 hb0)
  have g3 : ∀ bl ∈ ((blocks.map (blockReplace '2' '1' '!')).map
      (blockReplace '2' '0' ' ')).map (blockReplace '2' 'F' '/'),
      GoodBlock bl := by
    intro bl hbl
    obtain ⟨b0, hb0, rfl⟩ := List.mem_map.mp hbl
    exact goodBlock_blockReplace _ _ _ (by decide) b0 (g2 b0 hb0)
  have g4 : ∀ bl ∈ (((blocks.map (blockReplace '2' '1' '!')).map
      (blockReplace '2' '0' ' ')).map (blockReplace '2' 'F' '/')).map
      (blockReplace '3' 'A' ':'), GoodBlock bl := by
    intro bl hbl
    obtain ⟨b0, hb0, rfl⟩ := List.mem_map.mp hbl
    exact goodBlock_blockReplace _ _ _ (by decide) b0 (g3 b0 hb0)
  have g5 : ∀ bl ∈ ((((blocks.map (blockReplace '2' '1' '!')).map
      (blockReplace '2' '0' ' ')).map (blockReplace '2' 'F' '/')).map
      (blockReplace '3' 'A' ':')).map (blockReplace '3' 'D' '='),
      GoodBlock bl := by
    intro bl hbl
    obtain ⟨b0, hb0, rfl⟩ := List.mem_map.mp hbl
    exact goodBlock_blockReplace _ _ _ (by decide) b0 (g4 b0 hb0)
  have g6 : ∀ bl ∈ (((((blocks.map (blockReplace '2' '1' '!')).map
      (blockReplace '2' '0' ' ')).map (blockReplace '2' 'F' '/')).map
      (blockReplace '3' 'A' ':')).map (blockReplace '3' 'D' '=')).map
      (blockReplace '2' '6' '&'), GoodBlock bl := by
    intro bl hbl
    obtain ⟨b0, hb0, rfl⟩ := List.mem_map.mp hbl
    exact goodBlock_blockReplace _ _ _ (by decide) b0 (g5 b0 hb0)
  unfold urlencoding_decode
  rw [replaceEsc_blocks '2' '1' '!' blocks h,
    replaceEsc_blocks '2' '0' ' ' _ g1,
    replaceEsc_blocks '2' 'F' '/' _ g2,
    replaceEsc_blocks '3' 'A' ':' _ g3,
    replaceEsc_blocks '3' 'D' '=' _ g4,
    replaceEsc_blocks '2' '6' '&' _ g5,
    replaceEsc_blocks '3' 'F' '?' _ g6]
  rw [List.map_map, List.map_map, List.map_map, List.map_map, List.map_map,
    List.map_map]
  rfl

/-- The decoder leaves a single good block unchanged except for the
per-block action. -/
theorem decode_single_block (bl : List Char) (h : GoodBlock bl) :
    urlencoding_decode bl = decodeBlock bl := by
  have h1 : ∀ b2 ∈ [bl], GoodBlock b2 := by
    intro b2 hb2
    simp at hb2
    subst hb2
    exact h
  have h2 := decode_flatten_blocks [bl] h1
  simpa using h2

/-- A non-matching escape block is untouched by one `replace` pass. -/
theorem blockReplace_ne (p2 p3 rep b c : Char) (h : ¬(b = p2 ∧ c = p3)) :
    blockReplace p2 p3 rep ['%', b, c] = ['%', b, c] := by
  unfold blockReplace
  rw [if_neg]
  intro heq
  injection heq with a1 a2
  injection a2 with a3 a4
  injection a4 with a5 a6
  exact h ⟨a3, a5⟩

/-- Hex digits produced by the encoder are never percent signs. -/
theorem hexUpper_ne_pct (n : Nat) : hexUpper n ≠ '%' := by
  unfold hexUpper
  split <;> decide

/-- Unreserved characters are never percent signs. -/
theorem isUnreserved_ne_pct (c : Char) (h : isUnreserved c = true) :
    c ≠ '%' := by
  intro hc
  subst hc
  exact absurd h (by decide)

/-- Every block produced by the encoder for one character is good. -/
theorem goodBlock_charBlocks (c : Char) : ∀ bl ∈ charBlocks c, GoodBlock bl := by
  intro bl hbl
  unfold charBlocks at hbl
  by_cases hu : isUnreserved c = true
  · rw [if_pos hu] at hbl
    simp at hbl
    subst hbl
    exact Or.inl ⟨c, rfl, isUnreserved_ne_pct c hu⟩
  · rw [if_neg hu] at hbl
    obtain ⟨b0, -, rfl⟩ := List.mem_map.mp hbl
    exact Or.inr ⟨hexUpper (b0 / 16), hexUpper (b0 % 16), rfl,
      hexUpper_ne_pct _, hexUpper_ne_pct _⟩

/-- Every block of an encoded string is good. -/
theorem goodBlock_flatMap (s : List Char) :
    ∀ bl ∈ s.flatMap charBlocks, GoodBlock bl := by
  intro bl hbl
  obtain ⟨c, -, hbl2⟩ := List.mem_flatMap.mp hbl
  exact goodBlock_charBlocks c bl hbl2

/-- The encoder output is the flattening of its per-character blocks. -/
theorem encode_eq_flatten_charBlocks (s : List Char) :
    urlencoding_encode s = (s.flatMap charBlocks).flatten := by
  induction s with
  | nil => rfl
  | cons c t ih =>
      have hcons : urlencoding_encode (c :: t)
          = (if isUnreserved c then [c] else (utf8Bytes c).flatMap encodeByte)
              ++ urlencoding_encode t := by
        unfold urlencoding_encode
        rw [List.flatMap_cons]
      have hblk : (charBlocks c).flatten
          = if isUnreserved c then [c]
            else (utf8Bytes c).flatMap encodeByte := by
        unfold charBlocks
        split
        · rfl
        · rfl
      rw [hcons, ih, List.flatMap_cons, List.flatten_append, hblk]

/-- The decoder maps a single plain-character block to itself. -/
theorem decodeBlock_singleton (a : Char) : decodeBlock [a] = [a] := by
  simp [decodeBlock, blockReplace]

/-- For a character in the round-trip set, decoding the encoded blocks gives
back exactly that character. -/
theorem decodeBlock_charBlocks (c : Char) (h : inRoundTripSet c = true) :
    (charBlocks c).map decodeBlock = [[c]] := by
  by_cases hu : isUnreserved c = true
  · unfold charBlocks
    rw [if_pos hu]
    rw [List.map_cons, List.map_nil, decodeBlock_singleton]
  · have hufalse : isUnreserved c = false := by
      cases hb : isUnreserved c
      · rfl
      · exact absurd hb hu
    unfold inRoundTripSet at h
    rw [hufalse] at h
    simp only [Bool.false_or, Bool.or_eq_true, decide_eq_true_eq] at h
    rcases h with ((((((rfl | rfl) | rfl) | rfl) | rfl) | rfl) | rfl) <;>
      decide

/-- Flattening the decoded blocks of a round-trip-set string restores the
string. -/
theorem flatten_map_decode :
    ∀ s : List Char, (∀ c ∈ s, inRoundTripSet c = true) →
      ((s.flatMap charBlocks).map decodeBlock).flatten = s := by
  intro s
  induction s with
  | nil =>
      intro h
      rfl
  | cons c t ih =>
      intro h
      rw [List.flatMap_cons, List.map_append, List.flatten_append,
        decodeBlock_charBlocks c (h c (List.mem_cons_self c t)),
        ih (fun c2 hc2 => h c2 (List.mem_cons_of_mem c hc2))]
      rfl

/-- C10: the decoder rewrites exactly the seven escapes %21 %20 %2F %3A %3D
%26 %3F, leaves every other percent-escape (such as %24) literal, inverts
the encoder on every string over unreserved characters plus the seven
specially decoded ones, and fails to invert it on a string containing a
character outside that set. -/
theorem urlencoding_decode_roundtrip :
    (urlencoding_decode ("%21".toList) = "!".toList ∧
      urlencoding_decode ("%20".toList) = " ".toList ∧
      urlencoding_decode ("%2F".toList) = "/".toList ∧
      urlencoding_decode ("%3A".toList) = ":".toList ∧
      urlencoding_decode ("%3D".toList) = "=".toList ∧
      urlencoding_decode ("%26".toList) = "&".toList ∧
      urlencoding_decode ("%3F".toList) = "?".toList) ∧
    (∀ b c : Char, b ≠ '%' → c ≠ '%' →
      ¬(b = '2' ∧ c = '1') → ¬(b = '2' ∧ c = '0') → ¬(b = '2' ∧ c = 'F') →
      ¬(b = '3' ∧ c = 'A') → ¬(b = '3' ∧ c = 'D') → ¬(b = '2' ∧ c = '6') →
      ¬(b = '3' ∧ c = 'F') →
      urlencoding_decode ['%', b, c] = ['%', b, c]) ∧
    urlencoding_decode ("%24".toList) = "%24".toList ∧
    (∀ s : List Char, (∀ c ∈ s, inRoundTripSet c = true) →
      urlencoding_decode (urlencoding_encode s) = s) ∧
    urlencoding_decode (urlencoding_encode ("$".toList)) ≠ "$".toList := by
  refine ⟨⟨by decide, by decide, by decide, by decide, by decide, by decide,
    by decide⟩, ?_, by decide, ?_, by decide⟩
  · intro b c hb hc h1 h2 h3 h4 h5 h6 h7
    rw [decode_single_block _ (Or.inr ⟨b, c, rfl, hb, hc⟩)]
    unfold decodeBlock
    rw [blockReplace_ne _ _ _ _ _ h1, blockReplace_ne _ _ _ _ _ h2,
      blockReplace_ne _ _ _ _ _ h3, blockReplace_ne _ _ _ _ _ h4,
      blockReplace_ne _ _ _ _ _ h5, blockReplace_ne _ _ _ _ _ h6,
      blockReplace_ne _ _ _ _ _ h7]
  · intro s hs
    rw [encode_eq_flatten_charBlocks,
      decode_flatten_blocks _ (goodBlock_flatMap s), flatten_map_decode s hs]

/-- C10 witness: the round trip on a concrete string over the safe set. -/
theorem urlencoding_decode_roundtrip_witness :
    urlencoding_decode (urlencoding_encode ("a b!c/d?e".toList))
      = "a b!c/d?e".toList :=
  urlencoding_decode_roundtrip.2.2.2.1 ("a b!c/d?e".toList) (by decide)

end WebregAudit
